import Mathlib

/-!
Verification of the debounced batch-install scheduler in
packages/gatsby-cli/src/handlers/plugin-add-utils.ts.

The embedding models the pending queue (the module-level `installs` array),
the command generation (`getPackageNames`, `generateClientCommands`), one
pass of `executeInstalls` (group selection, queue removal, lock, installer
invocation, settlement) and the recursive drain, together with the trailing
debounce trigger (`_.debounce(executeInstalls, 25)`) and the asynchronous
interleaving of enqueues with in-flight flush chains.

External effects (the `execa` child process, the `lock` capability, promise
settlement) are reified as an event trace; the installer outcome is an
oracle parameter.
-/

namespace PluginAddUtils

/-- A resource carried through the queue, with the fields `executeInstalls`
and `getPackageNames` read off it: `name`, `version` and `dependencyType`
(the classification key used by the `_.groupBy` call). -/
structure Resource where
  name : String
  version : String
  dependencyType : String
deriving DecidableEq

/-- One element of the module-level `installs` array pushed by
`createInstall`: a completion handle (the `outsideResolve` / `outsideReject`
pair, identified here by `id`) plus its resource. -/
structure InstallEntry where
  id : Nat
  resource : Resource
deriving DecidableEq

/-- The object serialized by `JSON.stringify` in the catch branch of
`executeInstalls`: the short diagnostic message of the failed installer
invocation and the fixed marker. -/
structure RejectPayload where
  message : String
  installationError : String
deriving DecidableEq

/-- The fixed marker text placed in every rejection payload. -/
def installationErrorMarker : String := "Could not install package"

/-- How a completion handle is settled: `outsideResolve()` carries no
payload, `outsideReject(...)` carries the structured payload. -/
inductive Settlement where
  | resolved : Settlement
  | rejected : RejectPayload → Settlement
deriving DecidableEq

/-- Outcome of one `execa` invocation of the external installer. -/
inductive InstallResult where
  | success : InstallResult
  | failure : String → InstallResult
deriving DecidableEq

/-- Observable effects of a flush, in program order: lock acquisition and
release (keyed by resource name), the external installer invocation
(`execa(PACKAGE_MANAGER, commands, \x7b cwd: root \x7d)` — `args` is `none`
when `generateClientCommands` returned `undefined`), and each settlement of
a completion handle. -/
inductive Event where
  | lockAcquire : String → Event
  | lockRelease : String → Event
  | invoke : String → Option (List String) → String → Event
  | settle : Nat → Settlement → Event
deriving DecidableEq

/-- Source lines 67–69: `packages.map(n => ` the interpolation
`n.name @ n.version` `)`. No deduplication is performed. -/
def getPackageNames (packages : List Resource) : List String :=
  packages.map (fun n => n.name ++ "@" ++ n.version)

/-- Source lines 71–99: build the argument list for the configured package
manager; `yarn` pushes `add`, `-W`, and `--dev` when the dependency type is
`development`; `npm` pushes `install` and `--save-dev` likewise; any other
package manager yields `undefined`. -/
def generateClientCommands (packageManager depType : String)
    (packageNames : List String) : Option (List String) :=
  if packageManager = "yarn" then
    some ((["add", "-W"]
      ++ (if depType = "development" then ["--dev"] else []))
      ++ packageNames)
  else if packageManager = "npm" then
    some ((["install"]
      ++ (if depType = "development" then ["--save-dev"] else []))
      ++ packageNames)
  else
    none

/-- Source lines 108–115: `_.groupBy(installs, c => c.resource.dependencyType)`
indexed at the dependency type of `installs[0]` — in order, exactly the
queued entries whose dependency type equals that of the head. -/
def selectGroup (hd : InstallEntry) (tl : List InstallEntry) :
    List InstallEntry :=
  (hd :: tl).filter
    (fun i => i.resource.dependencyType == hd.resource.dependencyType)

/-- Source lines 116–119: `installs = installs.filter(i =>
!packagesToInstall.some(p => i.resource.name === p.resource.name))` —
removal compares names, not entry identity. -/
def removeByName (q group : List InstallEntry) : List InstallEntry :=
  q.filter (fun i => ! group.any (fun p => i.resource.name == p.resource.name))

/-- One pass of `executeInstalls` (source lines 106–158) on the nonempty
queue `hd :: tl`, with `result` the outcome of the `execa` call: picks the
group of the head entry, removes all same-named entries from the queue,
acquires the `package.json` lock, invokes the installer, and settles the
group. On failure the catch branch rejects every group member and returns
without releasing the lock; on success the lock is released, every member
is resolved, and the returned flag records the `installs.length > 0` check
guarding the recursive call. -/
def flushPass (packageManager root : String) (result : InstallResult)
    (hd : InstallEntry) (tl : List InstallEntry) :
    List Event × List InstallEntry × Bool :=
  let group := selectGroup hd tl
  let newQueue := removeByName (hd :: tl) group
  let packageNames := getPackageNames (group.map (fun p => p.resource))
  let commands :=
    generateClientCommands packageManager hd.resource.dependencyType
      packageNames
  match result with
  | InstallResult.failure msg =>
      ([Event.lockAcquire "package.json",
        Event.invoke packageManager commands root]
        ++ group.map (fun p =>
            Event.settle p.id
              (Settlement.rejected ⟨msg, installationErrorMarker⟩)),
       newQueue, false)
  | InstallResult.success =>
      ([Event.lockAcquire "package.json",
        Event.invoke packageManager commands root,
        Event.lockRelease "package.json"]
        ++ group.map (fun p => Event.settle p.id Settlement.resolved),
       newQueue, decide (0 < newQueue.length))

/-- The recursive drain of `executeInstalls` (source lines 106–159): the
`oracle` gives the outcome of the k-th installer invocation of the chain.
An empty queue is the error case — line 114 reads
`installs[0].resource.dependencyType` with no emptiness guard, a runtime
type error — modelled as `none`. Otherwise one flush pass runs and, when
the success path found the queue still nonempty, the chain recurses
immediately. -/
def executeInstalls (packageManager root : String)
    (oracle : Nat → InstallResult) (k : Nat) :
    (q : List InstallEntry) → Option (List Event × List InstallEntry)
  | [] => none
  | hd :: tl =>
    let r := flushPass packageManager root (oracle k) hd tl
    if r.2.2 then
      (executeInstalls packageManager root oracle (k + 1) r.2.1).map
        (fun p => (r.1 ++ p.1, p.2))
    else
      some (r.1, r.2.1)
termination_by q => q.length
decreasing_by
  simp only [List.length_cons]
  refine Nat.lt_succ_of_le ?_
  have hany : (selectGroup hd tl).any
      (fun p => hd.resource.name == p.resource.name) = true :=
    List.any_eq_true.mpr ⟨hd, by simp [selectGroup], by simp⟩
  have hcons : removeByName (hd :: tl) (selectGroup hd tl)
      = removeByName tl (selectGroup hd tl) := by
    simp [removeByName, hany]
  have hq : (flushPass packageManager root (oracle k) hd tl).2.1
      = removeByName tl (selectGroup hd tl) := by
    cases oracle k <;> simp [flushPass, hcons]
  rw [hq]
  exact List.length_filter_le _ tl

/-- The delay, in milliseconds, of `_.debounce(executeInstalls, 25)` at
source line 161. -/
def debounceDelay : Nat := 25

/-- Model of the lodash trailing-edge debounce wrapping `executeInstalls`:
given the ascending times of the calls to `debouncedExecute`, each call
arms the timer for `delay` units after itself, superseding a pending timer;
the pending timer fires only when no further call precedes its deadline.
Returns the fire times. -/
def debounceFires (delay : Nat) : List Nat → List Nat
  | [] => []
  | [t] => [t + delay]
  | t :: t2 :: rest =>
      if t2 < t + delay then debounceFires delay (t2 :: rest)
      else (t + delay) :: debounceFires delay (t2 :: rest)

/-- Number of external installer invocations recorded in a trace. -/
def invokeCount (evs : List Event) : Nat :=
  (evs.filter (fun e => match e with
    | Event.invoke _ _ _ => true
    | _ => false)).length

/-- The settlements recorded in a trace, in order: handle id and outcome. -/
def settlesOf (evs : List Event) : List (Nat × Settlement) :=
  evs.filterMap (fun e => match e with
    | Event.settle i s => some (i, s)
    | _ => none)

/-- How many times the handle `i` is settled in the trace. -/
def settleCount (evs : List Event) (i : Nat) : Nat :=
  ((settlesOf evs).map Prod.fst).count i

/-- Number of times the lock on `key` is acquired in the trace. -/
def lockAcquireCount (evs : List Event) (key : String) : Nat :=
  (evs.filter (fun e => e == Event.lockAcquire key)).length

/-- Number of times the lock on `key` is released in the trace. -/
def lockReleaseCount (evs : List Event) (key : String) : Nat :=
  (evs.filter (fun e => e == Event.lockRelease key)).length

/-- The settlement the code applies to every member of the serviced group:
`outsideResolve()` when `execa` succeeded, `outsideReject` with the
serialized payload when it failed. -/
def settlementOf : InstallResult → Settlement
  | InstallResult.success => Settlement.resolved
  | InstallResult.failure msg =>
      Settlement.rejected ⟨msg, installationErrorMarker⟩

/-- State of the cooperative interleaving of `createInstall` /
`debouncedExecute` / `executeInstalls`: the clock, the `installs` array,
the pending debounce deadline, and the group currently awaiting its
`execa` call when a flush chain is in flight. `crashed` records that
`executeInstalls` started on an empty queue (the unguarded `installs[0]`
access at line 114). -/
structure SchedState where
  now : Nat
  queue : List InstallEntry
  deadline : Option Nat
  inflight : Option (List InstallEntry)
  crashed : Bool
deriving DecidableEq

/-- The initial scheduler state: empty queue, no timer, no flush running. -/
def schedInit : SchedState :=
  { now := 0, queue := [], deadline := none, inflight := none,
    crashed := false }

/-- Start of a flush pass on the current queue (lines 106–135): on an
empty queue the `installs[0]` access fails; otherwise the head group is
selected, same-named entries are removed from the queue, and the pass
suspends awaiting the installer. -/
def startPass (s : SchedState) : SchedState :=
  match s.queue with
  | [] => { s with crashed := true }
  | hd :: tl =>
      { s with
          queue := removeByName (hd :: tl) (selectGroup hd tl),
          inflight := some (selectGroup hd tl) }

/-- Interleaving actions: an enqueue via `createInstall` at a given time
(appends to `installs` and re-arms the debounce timer), the debounce timer
firing at its deadline, and the in-flight `execa` call completing
successfully at a given time (the success path resolves the group and, at
lines 154–156, immediately starts another pass when the queue is
nonempty). -/
inductive SchedAction where
  | enqueue : InstallEntry → Nat → SchedAction
  | fire : Nat → SchedAction
  | completeSuccess : Nat → SchedAction
deriving DecidableEq

/-- One interleaving step; `none` when the action is not enabled. -/
def schedStep (s : SchedState) : SchedAction → Option SchedState
  | SchedAction.enqueue e t =>
      if s.now ≤ t ∧ s.crashed = false then
        some { s with
                now := t
                queue := s.queue ++ [e]
                deadline := some (t + debounceDelay) }
      else none
  | SchedAction.fire t =>
      if s.deadline = some t ∧ s.now ≤ t ∧ s.crashed = false then
        some (startPass { s with now := t, deadline := none })
      else none
  | SchedAction.completeSuccess t =>
      match s.inflight with
      | some _ =>
          if s.now ≤ t ∧ s.crashed = false then
            some (if s.queue.isEmpty then
                    { s with now := t, inflight := none }
                  else
                    startPass { s with now := t, inflight := none })
          else none
      | none => none

/-- Run a list of interleaving actions from a state. -/
def runSched (s : SchedState) : List SchedAction → Option SchedState
  | [] => some s
  | a :: rest =>
      match schedStep s a with
      | none => none
      | some s2 => runSched s2 rest

/-- Concrete production request for pkg-x. -/
def prodX : InstallEntry := ⟨0, ⟨"pkg-x", "1.0.0", "production"⟩⟩

/-- Concrete development request sharing the name pkg-x with `prodX`. -/
def devX : InstallEntry := ⟨1, ⟨"pkg-x", "2.0.0", "development"⟩⟩

/-- Concrete production request for pkg-a. -/
def prodA : InstallEntry := ⟨0, ⟨"pkg-a", "1.0.0", "production"⟩⟩

/-- A second request for pkg-a at the same version, with its own handle. -/
def prodA2 : InstallEntry := ⟨1, ⟨"pkg-a", "1.0.0", "production"⟩⟩

/-- Concrete production request for pkg-b. -/
def prodB : InstallEntry := ⟨1, ⟨"pkg-b", "1.0.0", "production"⟩⟩

/-- Concrete development request for pkg-b. -/
def devB : InstallEntry := ⟨1, ⟨"pkg-b", "1.0.0", "development"⟩⟩

/-- The interleaving that makes the debounce timer fire on an empty queue:
pkg-a is enqueued at 0; the timer fires at 25 and its flush chain suspends
at the installer; pkg-b is enqueued at 30 while the chain is in flight,
re-arming the timer for 55; the first pass completes at 40 and the success
path immediately starts a second pass on pkg-b; that pass completes at 50
leaving the queue empty; at 55 the re-armed timer fires with nothing
queued. -/
def c9Actions : List SchedAction :=
  [SchedAction.enqueue prodA 0, SchedAction.fire 25,
   SchedAction.enqueue prodB 30, SchedAction.completeSuccess 40,
   SchedAction.completeSuccess 50, SchedAction.fire 55]

theorem selectGroup_eq_cons (hd : InstallEntry) (tl : List InstallEntry) :
    selectGroup hd tl
      = hd :: tl.filter
          (fun i => i.resource.dependencyType == hd.resource.dependencyType) := by
  simp [selectGroup]

theorem head_mem_selectGroup (hd : InstallEntry) (tl : List InstallEntry) :
    hd ∈ selectGroup hd tl := by
  rw [selectGroup_eq_cons]; exact List.mem_cons_self _ _

theorem removeByName_cons_self (hd : InstallEntry) (tl : List InstallEntry) :
    removeByName (hd :: tl) (selectGroup hd tl)
      = removeByName tl (selectGroup hd tl) := by
  have hmem : hd ∈ selectGroup hd tl := head_mem_selectGroup hd tl
  have hany : (selectGroup hd tl).any
      (fun p => hd.resource.name == p.resource.name) = true := by
    exact List.any_eq_true.mpr ⟨hd, hmem, by simp⟩
  simp [removeByName, hany]

theorem flushPass_newQueue_length (packageManager root : String)
    (result : InstallResult) (hd : InstallEntry) (tl : List InstallEntry) :
    (flushPass packageManager root result hd tl).2.1.length ≤ tl.length := by
  have hq : (flushPass packageManager root result hd tl).2.1
      = removeByName tl (selectGroup hd tl) := by
    cases result <;>
      simp [flushPass, removeByName_cons_self]
  rw [hq]
  exact List.length_filter_le _ tl

theorem flushPass_newQueue (pm root : String) (r : InstallResult)
    (hd : InstallEntry) (tl : List InstallEntry) :
    (flushPass pm root r hd tl).2.1
      = removeByName (hd :: tl) (selectGroup hd tl) := by
  cases r <;> rfl

theorem settlesOf_append (a b : List Event) :
    settlesOf (a ++ b) = settlesOf a ++ settlesOf b := by
  simp [settlesOf]

theorem settlesOf_map_settle (l : List InstallEntry)
    (g : InstallEntry → Settlement) :
    settlesOf (l.map fun p => Event.settle p.id (g p))
      = l.map fun p => (p.id, g p) := by
  induction l with
  | nil => rfl
  | cons a l ih =>
      show (a.id, g a) :: settlesOf (l.map fun p => Event.settle p.id (g p))
        = _
      rw [ih]
      rfl

theorem settlesOf_flushPass (pm root : String) (r : InstallResult)
    (hd : InstallEntry) (tl : List InstallEntry) :
    settlesOf (flushPass pm root r hd tl).1
      = (selectGroup hd tl).map (fun p => (p.id, settlementOf r)) := by
  cases r <;>
    · simp only [flushPass]
      rw [settlesOf_append, settlesOf_map_settle]
      rfl

theorem invokeCount_append (a b : List Event) :
    invokeCount (a ++ b) = invokeCount a + invokeCount b := by
  simp [invokeCount, List.filter_append]

theorem invokeCount_map_settle (l : List InstallEntry)
    (g : InstallEntry → Settlement) :
    invokeCount (l.map fun p => Event.settle p.id (g p)) = 0 := by
  induction l with
  | nil => rfl
  | cons a l ih =>
      show invokeCount (l.map fun p => Event.settle p.id (g p)) = 0
      exact ih

theorem invokeCount_flushPass (pm root : String) (r : InstallResult)
    (hd : InstallEntry) (tl : List InstallEntry) :
    invokeCount (flushPass pm root r hd tl).1 = 1 := by
  cases r <;>
    · simp only [flushPass]
      rw [invokeCount_append, invokeCount_map_settle]
      rfl

theorem mem_removeByName {q group : List InstallEntry} {i : InstallEntry} :
    i ∈ removeByName q group
      ↔ i ∈ q ∧ ∀ p ∈ group, i.resource.name ≠ p.resource.name := by
  simp [removeByName, List.mem_filter, List.any_eq_true]

theorem not_mem_removeByName_of_mem_group {q group : List InstallEntry}
    {p : InstallEntry} (hp : p ∈ group) :
    p ∉ removeByName q group := by
  intro hmem
  rcases mem_removeByName.mp hmem with ⟨-, hall⟩
  exact hall p hp rfl

theorem flushPass_cont_failure (pm root msg : String) (hd : InstallEntry)
    (tl : List InstallEntry) :
    (flushPass pm root (InstallResult.failure msg) hd tl).2.2 = false := rfl

theorem flushPass_cont_pos (pm root : String) (r : InstallResult)
    (hd : InstallEntry) (tl : List InstallEntry)
    (hc : (flushPass pm root r hd tl).2.2 = true) :
    0 < (flushPass pm root r hd tl).2.1.length := by
  cases r with
  | success => simpa [flushPass] using hc
  | failure msg => simp [flushPass] at hc

theorem flushPass_invoke_mem (pm root : String) (r : InstallResult)
    (hd : InstallEntry) (tl : List InstallEntry) :
    Event.invoke pm
        (generateClientCommands pm hd.resource.dependencyType
          (getPackageNames ((selectGroup hd tl).map fun p => p.resource)))
        root
      ∈ (flushPass pm root r hd tl).1 := by
  cases r <;> simp [flushPass]

/-- C2: the claim says removal is by request identity, so the development
request `devX`, which merely shares the name pkg-x with the serviced
production request `prodX`, should remain in the queue after the flush.
In the code the removal filter compares `resource.name`, so `devX` is
removed as well: after servicing the production group the queue is empty,
refuting the claim at this input. -/
theorem C2_counterexample :
    devX.resource.dependencyType ≠ prodX.resource.dependencyType ∧
    devX.resource.name = prodX.resource.name ∧
    (flushPass "yarn" "/app" InstallResult.success prodX [devX]).2.1
      = [] := by
  decide

/-- C2 (amended): a flush pass removes from the pending queue exactly the
requests whose name matches the name of some request of the serviced
classification group — removal is by name, not by identity, so a request
of a different classification sharing a name with a serviced request is
removed as well. -/
theorem C2_amended_removal (pm root : String) (r : InstallResult)
    (hd : InstallEntry) (tl : List InstallEntry) (i : InstallEntry) :
    i ∈ (flushPass pm root r hd tl).2.1
      ↔ i ∈ hd :: tl
        ∧ ∀ p ∈ selectGroup hd tl, i.resource.name ≠ p.resource.name := by
  rw [flushPass_newQueue]
  exact mem_removeByName

/-- Witness for C2 (amended): a request whose name matches no serviced
request survives the flush. -/
theorem C2_amended_removal_witness :
    devB ∈ (flushPass "yarn" "/app" InstallResult.success prodA [devB]).2.1 :=
  (C2_amended_removal "yarn" "/app" InstallResult.success prodA [devB]
    devB).mpr (by decide)

/-- C3: the claim says the `package.json` lock is released on every exit
path of a flush pass. On the failure path the catch branch returns without
calling `release`, so the trace of a failing pass acquires the lock once
and never releases it, while the succeeding pass is balanced. -/
theorem C3_lock_not_released_on_failure :
    lockAcquireCount
        (flushPass "yarn" "/app" (InstallResult.failure "boom") prodA []).1
        "package.json" = 1 ∧
    lockReleaseCount
        (flushPass "yarn" "/app" (InstallResult.failure "boom") prodA []).1
        "package.json" = 0 ∧
    lockAcquireCount
        (flushPass "yarn" "/app" InstallResult.success prodA []).1
        "package.json" = 1 ∧
    lockReleaseCount
        (flushPass "yarn" "/app" InstallResult.success prodA []).1
        "package.json" = 1 := by
  decide

/-- C5: the claim says the argument list contains each unique name of the
group exactly once. Two queued requests for the same package at the same
version form one production group whose yarn invocation repeats
pkg-a@1.0.0: `getPackageNames` maps over all group members with no
deduplication. -/
theorem C5_counterexample :
    Event.invoke "yarn"
        (some ["add", "-W", "pkg-a@1.0.0", "pkg-a@1.0.0"]) "/app"
      ∈ (flushPass "yarn" "/app" InstallResult.success prodA [prodA2]).1 := by
  decide

/-- C5 (amended): the single external-installer command of a serviced group
carries one name@version entry per group member, in queue order and with
duplicates preserved (no deduplication); yarn uses the verb `add` (with
`-W`) and npm uses `install`, and the dev-only flag (`--dev` resp.
`--save-dev`) is present exactly when the classification is
`development`; the flush pass invokes the installer once with exactly that
argument list. -/
theorem C5_amended_commands (depType : String) (group : List Resource) :
    (getPackageNames group).length = group.length ∧
    generateClientCommands "yarn" depType (getPackageNames group)
      = some ((if depType = "development" then ["add", "-W", "--dev"]
          else ["add", "-W"])
          ++ group.map (fun n => n.name ++ "@" ++ n.version)) ∧
    generateClientCommands "npm" depType (getPackageNames group)
      = some ((if depType = "development" then ["install", "--save-dev"]
          else ["install"])
          ++ group.map (fun n => n.name ++ "@" ++ n.version)) ∧
    ∀ (pm root : String) (r : InstallResult) (hd : InstallEntry)
        (tl : List InstallEntry),
      Event.invoke pm
          (generateClientCommands pm hd.resource.dependencyType
            (getPackageNames ((selectGroup hd tl).map fun p => p.resource)))
          root
        ∈ (flushPass pm root r hd tl).1 := by
  refine ⟨by simp [getPackageNames], ?_, ?_,
    fun pm root r hd tl => flushPass_invoke_mem pm root r hd tl⟩ <;>
    by_cases h : depType = "development" <;>
      simp [generateClientCommands, getPackageNames, h]

/-- C6: within one flush pass the outcome is uniform across the serviced
group: every member handle is settled with the settlement determined by
the single installer result (`resolved` on success, the structured
rejection on failure), and no settlement of the pass carries any other
outcome — a flush never resolves some members and rejects others. -/
theorem C6_uniform_outcome (pm root : String) (r : InstallResult)
    (hd : InstallEntry) (tl : List InstallEntry) :
    (∀ p ∈ selectGroup hd tl,
        (p.id, settlementOf r) ∈ settlesOf (flushPass pm root r hd tl).1) ∧
    (∀ x ∈ settlesOf (flushPass pm root r hd tl).1,
        x.2 = settlementOf r) := by
  rw [settlesOf_flushPass]
  constructor
  · intro p hp
    exact List.mem_map_of_mem _ hp
  · intro x hx
    rcases List.mem_map.mp hx with ⟨p, -, rfl⟩
    rfl

/-- Witness for C6: in a concrete successful pass the serviced handle is
resolved. -/
theorem C6_uniform_outcome_witness :
    (prodA.id, Settlement.resolved)
      ∈ settlesOf (flushPass "yarn" "/app" InstallResult.success prodA []).1 := by
  have h := C6_uniform_outcome "yarn" "/app" InstallResult.success prodA []
  simpa [settlementOf] using h.1 prodA (by decide)

/-- C8: when the installer invocation of a group fails, the pass performed
exactly one invocation, does not continue the chain (no automatic retry),
and rejects every member of the serviced group with the structured payload
holding the short diagnostic message and the fixed marker text. -/
theorem C8_failure_rejection (pm root msg : String) (hd : InstallEntry)
    (tl : List InstallEntry) :
    invokeCount (flushPass pm root (InstallResult.failure msg) hd tl).1 = 1 ∧
    (flushPass pm root (InstallResult.failure msg) hd tl).2.2 = false ∧
    settlesOf (flushPass pm root (InstallResult.failure msg) hd tl).1
      = (selectGroup hd tl).map (fun p =>
          (p.id, Settlement.rejected ⟨msg, installationErrorMarker⟩)) := by
  refine ⟨invokeCount_flushPass pm root _ hd tl, rfl, ?_⟩
  simpa [settlementOf] using
    settlesOf_flushPass pm root (InstallResult.failure msg) hd tl

/-- C10: for any configured package manager other than yarn and npm,
`generateClientCommands` yields no argument list, and the flush pass still
invokes the external installer with that absent argument list. -/
theorem C10_unknown_package_manager (pm root : String)
    (h1 : pm ≠ "yarn") (h2 : pm ≠ "npm") (depType : String)
    (names : List String) (r : InstallResult) (hd : InstallEntry)
    (tl : List InstallEntry) :
    generateClientCommands pm depType names = none ∧
    Event.invoke pm none root ∈ (flushPass pm root r hd tl).1 := by
  have hg : ∀ d ns, generateClientCommands pm d ns = none := by
    intro d ns
    simp [generateClientCommands, h1, h2]
  refine ⟨hg depType names, ?_⟩
  have h := flushPass_invoke_mem pm root r hd tl
  rwa [hg] at h

/-- Witness for C10 at the package manager pnpm. -/
theorem C10_unknown_package_manager_witness :
    generateClientCommands "pnpm" "production" ["pkg-a@1.0.0"] = none ∧
    Event.invoke "pnpm" none "/app"
      ∈ (flushPass "pnpm" "/app" InstallResult.success prodA []).1 :=
  C10_unknown_package_manager "pnpm" "/app" (by decide) (by decide)
    "production" ["pkg-a@1.0.0"] InstallResult.success prodA []

/-- C7: for every burst of N ≥ 1 calls to the debounced trigger in which
each call arrives before the previously armed deadline (i.e. within one
debounce window of its predecessor), exactly one flush attempt fires, and
it fires `debounceDelay` time-units after the last call of the burst —
trailing-edge only, never one fire per call. -/
theorem C7_debounce_trailing (t : Nat) (ts : List Nat)
    (hburst : List.Chain (fun a b => a ≤ b ∧ b < a + debounceDelay) t ts) :
    debounceFires debounceDelay (t :: ts)
      = [(t :: ts).getLast (List.cons_ne_nil t ts) + debounceDelay] := by
  induction ts generalizing t with
  | nil => rfl
  | cons t2 rest ih =>
      obtain ⟨⟨hle, hlt⟩, hchain⟩ := List.chain_cons.mp hburst
      have hstep : debounceFires debounceDelay (t :: t2 :: rest)
          = debounceFires debounceDelay (t2 :: rest) := by
        simp [debounceFires, hlt]
      rw [hstep, ih t2 hchain]
      simp [List.getLast_cons]

/-- Witness for C7: three calls at 0, 10 and 20 produce the single fire at
45 = 20 + 25. -/
theorem C7_debounce_trailing_witness :
    debounceFires debounceDelay [0, 10, 20] = [45] := by
  have h := C7_debounce_trailing 0 [10, 20]
    (List.Chain.cons (by decide)
      (List.Chain.cons (by decide) List.Chain.nil))
  simpa using h

/-- C9: a flush pass is only well-defined on a nonempty queue — on the
empty queue the unguarded `installs[0]` access is the error case, modelled
as `none` — and that case is reachable: after the enqueue-during-flight
interleaving of `c9Actions` the queue has been fully drained by the
immediate recursive passes, yet the re-armed debounce timer still fires,
reaching the crashed state. -/
theorem C9_empty_queue_flush :
    executeInstalls "yarn" "/app" (fun _ => InstallResult.success) 0 []
      = none ∧
    runSched schedInit (c9Actions.take 5)
      = some { now := 50, queue := [], deadline := some 55,
               inflight := none, crashed := false } ∧
    runSched schedInit c9Actions
      = some { now := 55, queue := [], deadline := none,
               inflight := none, crashed := true } := by
  refine ⟨?_, by decide, by decide⟩
  simp [executeInstalls]

/-- C4: the claim says that even after a failed group the scheduler
immediately services the remaining queue. With a production request and a
development request queued and a failing installer, the chain performs
exactly one invocation and stops with the development request still
queued: the catch branch returns before the recursive call. -/
theorem C4_counterexample :
    (executeInstalls "yarn" "/app" (fun _ => InstallResult.failure "boom") 0
        [prodA, devB]).map (fun p => (invokeCount p.1, p.2))
      = some (1, [devB]) := by
  simp [executeInstalls, flushPass, selectGroup, removeByName, prodA, devB,
    getPackageNames, generateClientCommands, invokeCount,
    installationErrorMarker]

theorem executeInstalls_drain_aux (pm root : String)
    (oracle : Nat → InstallResult)
    (hsucc : ∀ n, oracle n = InstallResult.success) :
    ∀ (n k : Nat) (q : List InstallEntry), q.length ≤ n → q ≠ [] →
      ∃ evs, executeInstalls pm root oracle k q = some (evs, []) := by
  intro n
  induction n with
  | zero =>
      intro k q hlen hne
      cases q with
      | nil => exact absurd rfl hne
      | cons hd tl => simp at hlen
  | succ n ih =>
      intro k q hlen hne
      cases q with
      | nil => exact absurd rfl hne
      | cons hd tl =>
          simp only [executeInstalls, hsucc k]
          by_cases hq :
              (flushPass pm root InstallResult.success hd tl).2.1 = []
          · have hcont :
                (flushPass pm root InstallResult.success hd tl).2.2
                  = false := by
              simp [flushPass] at hq ⊢
              simp [hq]
            rw [hcont]
            exact ⟨(flushPass pm root InstallResult.success hd tl).1,
              by simp [hq]⟩
          · have hlen2 :
                (flushPass pm root InstallResult.success hd tl).2.1.length
                  ≤ n := by
              have h1 := flushPass_newQueue_length pm root
                InstallResult.success hd tl
              have h2 : tl.length ≤ n := by
                simpa using hlen
              exact le_trans h1 h2
            obtain ⟨evs2, hrec⟩ := ih (k + 1)
              (flushPass pm root InstallResult.success hd tl).2.1 hlen2 hq
            have hcont :
                (flushPass pm root InstallResult.success hd tl).2.2
                  = true := by
              have hpos : 0 <
                  (flushPass pm root InstallResult.success hd tl).2.1.length :=
                List.length_pos.mpr hq
              simp [flushPass] at hpos ⊢
              simpa [flushPass] using hpos
            rw [hcont]
            exact ⟨(flushPass pm root InstallResult.success hd tl).1 ++ evs2,
              by simp [hrec]⟩

/-- C4 (amended): only the success path re-invokes the flush: as long as
every installer invocation succeeds, the chain started on a nonempty queue
drains it completely (final queue empty) without waiting for the debounce
timer; after a failed group the pass returns immediately, leaving the
remaining requests queued until a future debounce trigger (see the
counterexample for the failure half). -/
theorem C4_amended_drain (pm root : String) (oracle : Nat → InstallResult)
    (hsucc : ∀ n, oracle n = InstallResult.success) (k : Nat)
    (q : List InstallEntry) (hne : q ≠ []) :
    ∃ evs, executeInstalls pm root oracle k q = some (evs, []) :=
  executeInstalls_drain_aux pm root oracle hsucc q.length k q le_rfl hne

/-- Witness for C4 (amended): a two-group queue is fully drained by one
chain when the installer succeeds. -/
theorem C4_amended_drain_witness :
    ∃ evs, executeInstalls "yarn" "/app" (fun _ => InstallResult.success) 0
        [prodA, devB] = some (evs, []) :=
  C4_amended_drain "yarn" "/app" (fun _ => InstallResult.success)
    (fun _ => rfl) 0 [prodA, devB] (by decide)

theorem mem_of_mem_selectGroup {hd : InstallEntry} {tl : List InstallEntry}
    {p : InstallEntry} (hp : p ∈ selectGroup hd tl) : p ∈ hd :: tl :=
  (List.mem_filter.mp hp).1

theorem mem_of_mem_removeByName {q group : List InstallEntry}
    {i : InstallEntry} (h : i ∈ removeByName q group) : i ∈ q :=
  (List.mem_filter.mp h).1

theorem settleCount_append (a b : List Event) (i : Nat) :
    settleCount (a ++ b) i = settleCount a i + settleCount b i := by
  simp [settleCount, settlesOf_append, List.count_append]

theorem settleCount_flushPass (pm root : String) (r : InstallResult)
    (hd : InstallEntry) (tl : List InstallEntry) (i : Nat) :
    settleCount (flushPass pm root r hd tl).1 i
      = ((selectGroup hd tl).map (fun e => e.id)).count i := by
  simp only [settleCount, settlesOf_flushPass, List.map_map]
  rfl

theorem nodup_ids_selectGroup {hd : InstallEntry} {tl : List InstallEntry}
    (h : ((hd :: tl).map (fun e => e.id)).Nodup) :
    ((selectGroup hd tl).map (fun e => e.id)).Nodup :=
  ((List.filter_sublist (hd :: tl)).map (fun e => e.id)).nodup h

theorem nodup_ids_removeByName {q group : List InstallEntry}
    (h : (q.map (fun e => e.id)).Nodup) :
    ((removeByName q group).map (fun e => e.id)).Nodup :=
  ((List.filter_sublist q).map (fun e => e.id)).nodup h

theorem executeInstalls_settles_subset (pm root : String)
    (oracle : Nat → InstallResult) :
    ∀ (n k : Nat) (q : List InstallEntry) (evs : List Event)
      (q2 : List InstallEntry), q.length ≤ n →
      executeInstalls pm root oracle k q = some (evs, q2) →
      ∀ x ∈ settlesOf evs, x.1 ∈ q.map (fun e => e.id) := by
  intro n
  induction n with
  | zero =>
      intro k q evs q2 hlen hrun
      cases q with
      | nil => simp [executeInstalls] at hrun
      | cons hd tl => simp at hlen
  | succ n ih =>
      intro k q evs q2 hlen hrun
      cases q with
      | nil => simp [executeInstalls] at hrun
      | cons hd tl =>
          simp only [executeInstalls] at hrun
          have hfirst : ∀ x ∈ settlesOf
              (flushPass pm root (oracle k) hd tl).1,
              x.1 ∈ (hd :: tl).map (fun e => e.id) := by
            intro x hx
            rw [settlesOf_flushPass] at hx
            rcases List.mem_map.mp hx with ⟨p, hp, rfl⟩
            exact List.mem_map_of_mem _ (mem_of_mem_selectGroup hp)
          by_cases hc : (flushPass pm root (oracle k) hd tl).2.2
          · rw [if_pos hc] at hrun
            rcases Option.map_eq_some'.mp hrun with ⟨⟨evs2, q2b⟩, hrec, heq⟩
            simp only [Prod.mk.injEq] at heq
            obtain ⟨h1, h2⟩ := heq
            intro x hx
            rw [← h1, settlesOf_append] at hx
            rcases List.mem_append.mp hx with hx | hx
            · exact hfirst x hx
            · have hlen2 : (flushPass pm root (oracle k) hd tl).2.1.length
                  ≤ n := by
                have := flushPass_newQueue_length pm root (oracle k) hd tl
                have h2 : tl.length ≤ n := by simpa using hlen
                exact le_trans this h2
              have hmem := ih (k + 1)
                (flushPass pm root (oracle k) hd tl).2.1 evs2 q2b hlen2
                hrec x hx
              rcases List.mem_map.mp hmem with ⟨e, he, hide⟩
              rw [flushPass_newQueue] at he
              rw [← hide]
              exact List.mem_map_of_mem _ (mem_of_mem_removeByName he)
          · rw [if_neg hc] at hrun
            simp only [Option.some.injEq, Prod.mk.injEq] at hrun
            obtain ⟨h1, h2⟩ := hrun
            intro x hx
            rw [← h1] at hx
            exact hfirst x hx

theorem executeInstalls_settle_once_aux (pm root : String)
    (oracle : Nat → InstallResult) :
    ∀ (n k : Nat) (hd : InstallEntry) (tl : List InstallEntry)
      (evs : List Event) (q2 : List InstallEntry),
      (hd :: tl).length ≤ n →
      ((hd :: tl).map (fun e => e.id)).Nodup →
      executeInstalls pm root oracle k (hd :: tl) = some (evs, q2) →
      (∀ i, settleCount evs i ≤ 1) ∧
      (∀ p ∈ selectGroup hd tl, settleCount evs p.id = 1) := by
  intro n
  induction n with
  | zero =>
      intro k hd tl evs q2 hlen
      simp at hlen
  | succ n ih =>
      intro k hd tl evs q2 hlen hnodup hrun
      simp only [executeInstalls] at hrun
      have hgn : ((selectGroup hd tl).map (fun e => e.id)).Nodup :=
        nodup_ids_selectGroup hnodup
      by_cases hc : (flushPass pm root (oracle k) hd tl).2.2
      · rw [if_pos hc] at hrun
        rcases Option.map_eq_some'.mp hrun with ⟨⟨evs2, q2b⟩, hrec, heq⟩
        simp only [Prod.mk.injEq] at heq
        obtain ⟨h1, h2⟩ := heq
        have hpos := flushPass_cont_pos pm root (oracle k) hd tl hc
        have hlen2 : (flushPass pm root (oracle k) hd tl).2.1.length ≤ n := by
          have := flushPass_newQueue_length pm root (oracle k) hd tl
          have htl : tl.length ≤ n := by simpa using hlen
          exact le_trans this htl
        have hnodup2 :
            ((flushPass pm root (oracle k) hd tl).2.1.map
              (fun e => e.id)).Nodup := by
          rw [flushPass_newQueue]
          exact nodup_ids_removeByName hnodup
        -- ids settled by the recursive chain live in the new queue
        have hsub := executeInstalls_settles_subset pm root oracle
          ((flushPass pm root (oracle k) hd tl).2.1.length) (k + 1)
          (flushPass pm root (oracle k) hd tl).2.1 evs2 q2b le_rfl hrec
        -- the recursive chain settles each id at most once
        have hrecounts : ∀ i, settleCount evs2 i ≤ 1 := by
          rcases hq : (flushPass pm root (oracle k) hd tl).2.1 with _ | ⟨hd2, tl2⟩
          · rw [hq] at hpos
            simp at hpos
          · rw [hq] at hrec hlen2 hnodup2
            exact (ih (k + 1) hd2 tl2 evs2 q2b (by simpa using hlen2)
              hnodup2 hrec).1
        -- members of the serviced group are not settled by the chain
        have hdisj : ∀ p ∈ selectGroup hd tl, settleCount evs2 p.id = 0 := by
          intro p hp
          apply List.count_eq_zero.mpr
          intro hmem
          rcases List.mem_map.mp hmem with ⟨x, hx, hfst⟩
          have hxq := hsub x hx
          rw [hfst, flushPass_newQueue] at hxq
          rcases List.mem_map.mp hxq with ⟨e, he, hide⟩
          have hpe : e = p :=
            List.inj_on_of_nodup_map hnodup
              (mem_of_mem_removeByName he) (mem_of_mem_selectGroup hp) hide
          rw [hpe] at he
          exact not_mem_removeByName_of_mem_group hp he
        subst h1
        constructor
        · intro i
          rw [settleCount_append, settleCount_flushPass]
          by_cases hig : i ∈ (selectGroup hd tl).map (fun e => e.id)
          · rcases List.mem_map.mp hig with ⟨p, hp, rfl⟩
            rw [hdisj p hp, List.count_eq_one_of_mem hgn hig]
          · rw [List.count_eq_zero.mpr hig]
            simpa using hrecounts i
        · intro p hp
          rw [settleCount_append, settleCount_flushPass, hdisj p hp,
            List.count_eq_one_of_mem hgn (List.mem_map_of_mem _ hp)]
      · rw [if_neg hc] at hrun
        simp only [Option.some.injEq, Prod.mk.injEq] at hrun
        obtain ⟨h1, h2⟩ := hrun
        subst h1
        constructor
        · intro i
          rw [settleCount_flushPass]
          exact List.nodup_iff_count_le_one.mp hgn i
        · intro p hp
          rw [settleCount_flushPass]
          exact List.count_eq_one_of_mem hgn (List.mem_map_of_mem _ hp)

/-- C1: the claim says no request is left permanently unsettled once a
flush pass has removed it from the queue. The development request `devX`
(handle id 1) shares the name pkg-x with the serviced production request:
the chain completes with an empty final queue — so the flush removed
`devX` — yet the trace settles handle 1 zero times. -/
theorem C1_counterexample :
    (executeInstalls "yarn" "/app" (fun _ => InstallResult.success) 0
        [prodX, devX]).map (fun p => (settleCount p.1 devX.id, p.2))
      = some (0, []) := by
  simp [executeInstalls, flushPass, selectGroup, removeByName, prodX, devX,
    getPackageNames, generateClientCommands, settleCount, settlesOf,
    installationErrorMarker]

/-- C1 (amended): assuming the queued completion handles are pairwise
distinct, a flush chain settles every handle at most once — never both
resolved and rejected, never twice — and settles each member of the group
it services first exactly once; however, a request that a pass removes
from the queue only because its name collides with a request of the
serviced classification group is never settled (see the
counterexample). -/
theorem C1_amended_settle_once (pm root : String)
    (oracle : Nat → InstallResult) (k : Nat) (hd : InstallEntry)
    (tl : List InstallEntry)
    (hnodup : ((hd :: tl).map (fun e => e.id)).Nodup)
    (evs : List Event) (q2 : List InstallEntry)
    (hrun : executeInstalls pm root oracle k (hd :: tl) = some (evs, q2)) :
    (∀ i, settleCount evs i ≤ 1) ∧
    (∀ p ∈ selectGroup hd tl, settleCount evs p.id = 1) :=
  executeInstalls_settle_once_aux pm root oracle (hd :: tl).length k hd tl
    evs q2 le_rfl hnodup hrun

/-- Witness for C1 (amended): on the concrete two-request queue the chain
settles the serviced handle 0 exactly once. -/
theorem C1_amended_settle_once_witness :
    (executeInstalls "yarn" "/app" (fun _ => InstallResult.success) 0
        [prodA, devB]).map (fun p => settleCount p.1 prodA.id)
      = some 1 := by
  rcases hsome : executeInstalls "yarn" "/app"
      (fun _ => InstallResult.success) 0 [prodA, devB] with _ | ⟨evs, q2⟩
  · exfalso
    have hs : (executeInstalls "yarn" "/app"
        (fun _ => InstallResult.success) 0 [prodA, devB]).isSome = true := by
      simp [executeInstalls, flushPass, selectGroup, removeByName, prodA,
        devB, getPackageNames, generateClientCommands]
    rw [hsome] at hs
    simp at hs
  · have h := C1_amended_settle_once "yarn" "/app"
      (fun _ => InstallResult.success) 0 prodA [devB] (by decide) evs q2
      hsome
    have h1 := h.2 prodA (by decide)
    simp [hsome, h1]

end PluginAddUtils
